import Mathlib

/-!
# Verification of the WMS pick-event analytics engine (`app.py`)

Shallow embedding of the core analytics functions of the repository's single
source file `app.py` (a streamlit dashboard).  Modelling conventions:

* Timestamps are whole seconds (`Nat`) on a proleptic time line in which every
  day has 86400 seconds; the calendar date of a timestamp `t` is `t / 86400`.
  This matches naive-`datetime` arithmetic at second resolution (sub-second
  fractions are not exercised by any claim).
* Missing values (`NaN`/`None` cells, absent columns) are `Option.none`.
* Python strings are Lean `String`s; `str.strip`, `str.isdigit`, `int(...)`
  are modelled on ASCII data (`Char.isDigit`).  Python's `str.isdigit` also
  accepts non-ASCII decimal digits, on which `int()` then raises (the code
  catches the error); both paths yield the same observable results for the
  functions modelled here.
* `float(...)` literals are parsed as exact rationals; formatting with
  `"{:.0f}"` is modelled as round-half-to-even, `int(float(...))` as
  truncation toward zero.  Binary double-precision rounding artifacts are
  outside the model (no claim touches them).
-/

/-- Python `str.strip()` (for ASCII whitespace): drop leading and trailing
whitespace characters. -/
def pyStrip (s : String) : String :=
  String.mk (((s.data.dropWhile Char.isWhitespace).reverse.dropWhile Char.isWhitespace).reverse)

/-- Python `str.isdigit()` on ASCII data: nonempty and all decimal digits. -/
def pyIsDigit (s : String) : Bool :=
  !s.data.isEmpty && s.data.all Char.isDigit

/-- Value of a run of decimal digit characters (`int(...)` on a digit string). -/
def digitsVal (l : List Char) : Nat :=
  l.foldl (fun a c => a * 10 + (c.toNat - 48)) 0

/-- Python `str.zfill(20)`: left-pad a (digit) string with zeros to width 20. -/
def zfill20 (s : String) : String :=
  String.mk (List.replicate (20 - s.data.length) '0' ++ s.data)

/-- Split a character list into its leading digit run and the rest. -/
def spanDigits (l : List Char) : List Char × List Char :=
  (l.takeWhile Char.isDigit, l.dropWhile Char.isDigit)

/-- Optional leading sign of a numeric literal. -/
def parseSign (l : List Char) : Int × List Char :=
  match l with
  | '+' :: t => (1, t)
  | '-' :: t => (-1, t)
  | _ => (1, l)

/-- A (possibly signed) all-digit run, consuming the whole input. -/
def parseSignedDigits (l : List Char) : Option Int :=
  match l with
  | '+' :: t => if !t.isEmpty && t.all Char.isDigit then some (digitsVal t : Int) else none
  | '-' :: t => if !t.isEmpty && t.all Char.isDigit then some (-(digitsVal t : Int)) else none
  | t => if !t.isEmpty && t.all Char.isDigit then some (digitsVal t : Int) else none

/-- Optional exponent part `e±ddd` of a float literal (empty input means
exponent 0); anything else fails. -/
def parseExpPart (l : List Char) : Option Int :=
  match l with
  | [] => some 0
  | 'e' :: t => parseSignedDigits t
  | 'E' :: t => parseSignedDigits t
  | _ => none

/-- Python `float(s)` modelled as an exact rational: sign, integer part,
optional fraction, optional exponent.  (`inf`/`nan` and underscore separators
are outside the model; binary rounding is not applied.) -/
def parseDecimal (s : String) : Option Rat :=
  let l := (pyStrip s).data
  let sl := parseSign l
  let ipr := spanDigits sl.2
  let fpr : List Char × List Char :=
    match ipr.2 with
    | '.' :: t => spanDigits t
    | _ => ([], ipr.2)
  if ipr.1.isEmpty && fpr.1.isEmpty then none
  else
    match parseExpPart fpr.2 with
    | none => none
    | some ex =>
      let mant : Int := sl.1 * ((digitsVal ipr.1 : Int) * 10 ^ fpr.1.length + (digitsVal fpr.1 : Int))
      some ((mant : Rat) * (10 : Rat) ^ (ex - (fpr.1.length : Int)))

/-- Round-half-to-even of a rational to an integer (Python `"{:.0f}"` format). -/
def roundHalfEven (q : Rat) : Int :=
  let f := q.floor
  let r := q - (f : Rat)
  if r < 1 / 2 then f
  else if 1 / 2 < r then f + 1
  else if f % 2 = 0 then f else f + 1

/-- Truncation toward zero (Python `int(float)` conversion). -/
def truncToZero (q : Rat) : Int :=
  if 0 ≤ q then q.floor else -((-q).floor)

/-! ## Constants of `app.py` -/

/-- The six fixed daily break intervals `(h1, m1, h2, m2)` (`BREAKS`). -/
def BREAKS : List (Nat × Nat × Nat × Nat) :=
  [(8, 15, 8, 30), (11, 0, 11, 30), (12, 45, 13, 0), (16, 15, 16, 30),
   (18, 30, 19, 0), (20, 30, 20, 45)]

/-- `ROW_CHANGE_PENALTY` constant. -/
def ROW_CHANGE_PENALTY : Nat := 25

/-- `KLT_START` constant. -/
def KLT_START : String := "00496000004606000000"

/-- `KLT_END` constant. -/
def KLT_END : String := "00496000004606000500"

/-! ## Row-level helper functions of `app.py` -/

/-- `clean_delivery_id` from `app.py`: missing value becomes `""`, otherwise
strip; if the string contains `'.'`, re-parse as `int(float(s))` and render;
on parse failure keep the stripped string. -/
def clean_delivery_id (val : Option String) : String :=
  match val with
  | none => ""
  | some v =>
    let s := pyStrip v
    if '.' ∈ s.data then
      match parseDecimal s with
      | some q => toString (truncToZero q)
      | none => s
    else s

/-- `clean_unloading_point` from `app.py`: missing value becomes `""`;
strip; drop a trailing `".0"`; if the string contains an exponent marker,
reformat through `"{:.0f}".format(float(s))` (kept as-is on failure);
finally zero-pad all-digit strings shorter than 20 to width 20. -/
def clean_unloading_point (val : Option String) : String :=
  match val with
  | none => ""
  | some v =>
    let s0 := pyStrip v
    let s1 := if ['.', '0'] <:+ s0.data then String.mk (s0.data.take (s0.data.length - 2)) else s0
    let s2 :=
      if 'E' ∈ s1.data ∨ 'e' ∈ s1.data then
        match parseDecimal s1 with
        | some q => toString (roundHalfEven q)
        | none => s1
      else s1
    if pyIsDigit s2 = true ∧ s2.data.length < 20 then zfill20 s2 else s2

/-- `parse_bin_coords` from `app.py`: missing value yields no coordinates;
otherwise strip, remove all dashes and spaces, and when the remainder is an
all-digit run of length at least 4, take the first two digits as the row and
the next two as the bay, subject to `10 ≤ row ≤ 99` and `0 ≤ bay ≤ 99`
(the lower bay bound is automatic for `Nat`).  Anything else yields `none`. -/
def parse_bin_coords (bin_str : Option String) : Option (Nat × Nat) :=
  match bin_str with
  | none => none
  | some b =>
    let s := (pyStrip b).data.filter (fun c => !(c == '-') && !(c == ' '))
    if 4 ≤ s.length ∧ s.all Char.isDigit = true then
      let row := digitsVal (s.take 2)
      let bay := digitsVal ((s.drop 2).take 2)
      if 10 ≤ row ∧ row ≤ 99 ∧ bay ≤ 99 then some (row, bay) else none
    else none

/-- `calculate_distance_score` from `app.py`: decode both bins; if either
decode fails return the sentinel `-1`, otherwise
`|row_diff| * ROW_CHANGE_PENALTY + |bay_diff|`. -/
def calculate_distance_score (curr_bin prev_bin : Option String) : Int :=
  match parse_bin_coords curr_bin, parse_bin_coords prev_bin with
  | some (r1, b1), some (r2, b2) =>
    ((((r1 : Int) - (r2 : Int)).natAbs * ROW_CHANGE_PENALTY
      + ((b1 : Int) - (b2 : Int)).natAbs : Nat) : Int)
  | _, _ => -1

/-- Start (in absolute seconds) of a break interval anchored to day `day`. -/
def ovStart (s : Nat) (q : Nat × Nat × Nat × Nat) : Int :=
  max (s : Int) ((s / 86400 * 86400 + q.1 * 3600 + q.2.1 * 60 : Nat) : Int)

/-- End (in absolute seconds) of a break interval anchored to the day of `s`,
clipped by the pair's end `e`. -/
def ovEnd (e : Nat) (s : Nat) (q : Nat × Nat × Nat × Nat) : Int :=
  min (e : Int) ((s / 86400 * 86400 + q.2.2.1 * 3600 + q.2.2.2 * 60 : Nat) : Int)

/-- The `break_sec` accumulation loop of `calculate_net_time`: sum of the
positive overlaps of `[s, e]` with the break windows of the day of `s`. -/
def breakSeconds (s e : Nat) : Int :=
  BREAKS.foldl
    (fun acc q => if ovStart s q < ovEnd e s q then acc + (ovEnd e s q - ovStart s q) else acc) 0

/-- `calculate_net_time` from `app.py`: missing endpoint → 0; negative gross
duration → 0; gross duration above 43200 s → gross duration unchanged;
otherwise gross duration minus the summed break overlaps, clamped to `≥ 0`.
(The local Python variable `total` is inlined.) -/
def calculate_net_time (start_dt end_dt : Option Nat) : Int :=
  match start_dt, end_dt with
  | some s, some e =>
    if (e : Int) - (s : Int) < 0 then 0
    else if 43200 < (e : Int) - (s : Int) then (e : Int) - (s : Int)
    else max 0 (((e : Int) - (s : Int)) - breakSeconds s e)
  | _, _ => 0

/-- The three pick categories produced by `classify` in `process_data`
(`'Paleta 📦'`, `'KLT (Vozík) 🛒'`, `'Ostatní'`). -/
inductive PickType
  | paleta
  | klt
  | ostatni
  deriving DecidableEq

/-- Lexicographic string comparison by code points (Python `<=` on `str`),
expressed on the underlying character lists. -/
def strLe (a b : String) : Prop := a.data < b.data ∨ a.data = b.data

instance (a b : String) : Decidable (strLe a b) := by
  unfold strLe
  exact inferInstance

/-- The row classifier `classify` nested in `process_data`: a present
certificate number wins; else a cleaned unloading point of width 20 lying in
the closed range `[KLT_START, KLT_END]` (lexicographic string comparison)
gives a small load carrier; else other. -/
def classify (cert : Option String) (cleanUP : String) : PickType :=
  if cert.isSome then .paleta
  else if cleanUP.length = 20 ∧ strLe KLT_START cleanUP ∧ strLe cleanUP KLT_END then .klt
  else .ostatni

/-! ## Support lemmas -/

/-- The positive-overlap accumulation loop equals the sum of clamped overlaps. -/
theorem foldl_overlap_eq (f g : Nat × Nat × Nat × Nat → Int) :
    ∀ (l : List (Nat × Nat × Nat × Nat)) (acc : Int),
      l.foldl (fun a q => if f q < g q then a + (g q - f q) else a) acc
        = acc + (l.map (fun q => max 0 (g q - f q))).sum := by
  intro l
  induction l with
  | nil => simp
  | cons q t ih =>
    intro acc
    simp only [List.foldl_cons, List.map_cons, List.sum_cons]
    rcases lt_or_le (f q) (g q) with h | h
    · rw [if_pos h, ih, max_eq_right (by omega)]; ring
    · rw [if_neg (not_lt.mpr h), ih, max_eq_left (by omega)]; ring

theorem breakSeconds_eq (s e : Nat) :
    breakSeconds s e = (BREAKS.map (fun q => max 0 (ovEnd e s q - ovStart s q))).sum := by
  unfold breakSeconds
  rw [foldl_overlap_eq]
  ring

theorem breakSeconds_nonneg (s e : Nat) : 0 ≤ breakSeconds s e := by
  rw [breakSeconds_eq]
  refine List.sum_nonneg ?_
  intro x hx
  obtain ⟨q, -, rfl⟩ := List.mem_map.mp hx
  exact le_max_left _ _

/-! ## Claim C3 -/

/-- C3: for a timestamp pair whose gross duration strictly exceeds 43200
seconds, `calculate_net_time` returns exactly the gross duration, with no
break subtraction. -/
theorem C3_gross_over_cap (s e : Nat) (h : 43200 < (e : Int) - (s : Int)) :
    calculate_net_time (some s) (some e) = (e : Int) - (s : Int) := by
  simp only [calculate_net_time]
  rw [if_neg (by omega), if_pos h]

/-- Witness for C3 at `s = 0`, `e = 172800` (48 h). -/
theorem C3_gross_over_cap_witness :
    calculate_net_time (some 0) (some 172800) = 172800 :=
  (C3_gross_over_cap 0 172800 (by decide)).trans (by decide)

/-! ## Claim C7 -/

/-- C7: when either endpoint is absent, or the end precedes the start,
`calculate_net_time` returns 0 (never a negative value). -/
theorem C7_malformed_zero (sd ed : Option Nat)
    (h : sd = none ∨ ed = none ∨ ∃ s e, sd = some s ∧ ed = some e ∧ e < s) :
    calculate_net_time sd ed = 0 := by
  rcases h with h | h | ⟨s, e, rfl, rfl, hlt⟩
  · subst h; rfl
  · subst h; cases sd <;> rfl
  · simp only [calculate_net_time]
    rw [if_pos (by omega)]

/-- Witness for C7 at an absent start endpoint. -/
theorem C7_malformed_zero_witness : calculate_net_time none (some 3) = 0 :=
  C7_malformed_zero none (some 3) (Or.inl rfl)

/-! ## Claim C10 -/

/-- The gross elapsed seconds `max 0 (end - start)` of a timestamp pair
(0 when an endpoint is absent): the bound of claim C10. -/
def gross_seconds (start_dt end_dt : Option Nat) : Int :=
  match start_dt, end_dt with
  | some s, some e => max 0 ((e : Int) - (s : Int))
  | _, _ => 0

/-- C10: `calculate_net_time` is never negative and never exceeds the gross
elapsed seconds, for every pair of (possibly absent) timestamps. -/
theorem C10_net_bounds (sd ed : Option Nat) :
    0 ≤ calculate_net_time sd ed ∧ calculate_net_time sd ed ≤ gross_seconds sd ed := by
  match sd, ed with
  | none, _ => exact ⟨le_refl 0, le_refl 0⟩
  | some s, none => exact ⟨le_refl 0, le_refl 0⟩
  | some s, some e =>
    simp only [calculate_net_time, gross_seconds]
    split_ifs with h1 h2
    · exact ⟨le_refl 0, le_max_left _ _⟩
    · exact ⟨by omega, le_max_right _ _⟩
    · refine ⟨le_max_left _ _, ?_⟩
      have hb := breakSeconds_nonneg s e
      have : ((e : Int) - (s : Int)) - breakSeconds s e ≤ (e : Int) - (s : Int) := by omega
      exact max_le_max (le_refl 0) this

/-! ## Claim C4 -/

/-- C4: for a pair with `start ≤ end` and gross duration at most 43200
seconds, `calculate_net_time` equals the gross duration minus the sum of the
clamped overlaps of `[start, end]` with the six break intervals anchored to
the calendar day of `start`, the result clamped to `≥ 0`. -/
theorem C4_break_subtraction (s e : Nat) (h1 : s ≤ e) (h2 : (e : Int) - (s : Int) ≤ 43200) :
    calculate_net_time (some s) (some e) =
      max 0 (((e : Int) - (s : Int))
        - (BREAKS.map (fun q => max 0 (ovEnd e s q - ovStart s q))).sum) := by
  simp only [calculate_net_time]
  rw [if_neg (by omega), if_neg (by omega), breakSeconds_eq]

/-- Witness for C4: the spec scenario 2024-01-01 08:00:00 → 08:45:00
(seconds 1704096000 → 1704098700): gross 2700 s, overlap with the
(8,15,8,30) break 900 s, net 1800 s. -/
theorem C4_break_subtraction_witness :
    (1704096000 : Nat) ≤ 1704098700 ∧
    ((1704098700 : Int) - (1704096000 : Int) ≤ 43200) ∧
    calculate_net_time (some 1704096000) (some 1704098700) = 1800 :=
  ⟨by decide, by decide,
    (C4_break_subtraction 1704096000 1704098700 (by decide) (by decide)).trans (by decide)⟩

/-! ## Claim C5 -/

/-- C5: the distance scorer returns the sentinel `-1` exactly when at least
one bin code fails to decode, and otherwise returns
`|row_diff| * ROW_CHANGE_PENALTY + |bay_diff|`; in particular the codes
`"13-01-01-01"` and `"15-01-01-01"` score `2 * 25 + 0 = 50`. -/
theorem C5_distance_score (c p : Option String) :
    (calculate_distance_score c p = -1 ↔
      parse_bin_coords c = none ∨ parse_bin_coords p = none) ∧
    (∀ r1 b1 r2 b2, parse_bin_coords c = some (r1, b1) → parse_bin_coords p = some (r2, b2) →
      calculate_distance_score c p =
        ((((r1 : Int) - (r2 : Int)).natAbs * ROW_CHANGE_PENALTY
          + ((b1 : Int) - (b2 : Int)).natAbs : Nat) : Int)) ∧
    calculate_distance_score (some "13-01-01-01") (some "15-01-01-01") = 50 := by
  refine ⟨?_, ?_, by decide⟩
  · rcases hc : parse_bin_coords c with - | ⟨r1, b1⟩ <;>
      rcases hp : parse_bin_coords p with - | ⟨r2, b2⟩ <;>
      simp only [calculate_distance_score, hc, hp]
    · simp
    · simp
    · simp
    · constructor
      · intro hEq
        have hnn : (0 : Int) ≤
            ((((r1 : Int) - (r2 : Int)).natAbs * ROW_CHANGE_PENALTY
              + ((b1 : Int) - (b2 : Int)).natAbs : Nat) : Int) := Int.natCast_nonneg _
        rw [hEq] at hnn
        exact absurd hnn (by norm_num)
      · rintro (hn | hn) <;> exact absurd hn (by simp)
  · intro r1 b1 r2 b2 hc hp
    simp only [calculate_distance_score, hc, hp]

/-- Witness for C5 at the decodable codes `"1301"` and `"1502"`. -/
theorem C5_distance_score_witness :
    calculate_distance_score (some "1301") (some "1502") =
      ((((13 : Int) - (15 : Int)).natAbs * ROW_CHANGE_PENALTY
        + ((1 : Int) - (2 : Int)).natAbs : Nat) : Int) :=
  (C5_distance_score (some "1301") (some "1502")).2.1 13 1 15 2 (by decide) (by decide)

/-! ## Claim C6 -/

/-- C6: an event with a present certificate number always classifies as
pallet and never as small load carrier, whatever the cleaned unloading
point is (in particular even when it is width 20 and inside
`[KLT_START, KLT_END]`). -/
theorem C6_certificate_precedence (cert : Option String) (up : String)
    (h : cert.isSome = true) :
    classify cert up = PickType.paleta ∧ classify cert up ≠ PickType.klt := by
  simp [classify, h]

/-- Witness for C6 with a present certificate and the in-range width-20
unloading point `KLT_START`. -/
theorem C6_certificate_precedence_witness :
    KLT_START.length = 20 ∧ strLe KLT_START KLT_START ∧ strLe KLT_START KLT_END ∧
    (classify (some "0") KLT_START = PickType.paleta ∧
      classify (some "0") KLT_START ≠ PickType.klt) :=
  ⟨by decide, by decide, by decide, C6_certificate_precedence (some "0") KLT_START rfl⟩

/-! ## Claim C2 -/

/-- C2 counterexample: the claim reads the first dash segment as the row and
the second as the bay with no bounds check; on `"9-9-9-9"` that would give
`(9, 9)`, but the code strips the dashes and slices two-digit fields,
yielding `(99, 99)`. -/
theorem C2_counterexample :
    parse_bin_coords (some "9-9-9-9") = some (99, 99) ∧
    parse_bin_coords (some "9-9-9-9") ≠ some (9, 9) := by
  constructor <;> decide

/-- C2 (amended): the decoder strips dashes and spaces and takes the first
two and next two digits of the remaining digit run (requiring at least four
digits), always validating `10 ≤ row ≤ 99` and `bay ≤ 99`; hence
`"13-01-01-01"` decodes to `(13, 1)` while `"05-01-01-01"` fails the row
bound and decodes to `none`. -/
theorem C2_bin_decode :
    (∀ (b : String) (r bay : Nat), parse_bin_coords (some b) = some (r, bay) →
      10 ≤ r ∧ r ≤ 99 ∧ bay ≤ 99) ∧
    parse_bin_coords (some "13-01-01-01") = some (13, 1) ∧
    parse_bin_coords (some "05-01-01-01") = none := by
  refine ⟨?_, by decide, by decide⟩
  intro b r bay h
  simp only [parse_bin_coords] at h
  split at h
  · split at h
    · rename_i hbound
      injection h with h
      injection h with h3 h4
      subst h3
      subst h4
      exact hbound
    · exact absurd h (by simp)
  · exact absurd h (by simp)

/-- Witness for C2 applying the bounds statement at `"13-01-01-01"`. -/
theorem C2_bin_decode_witness : 10 ≤ 13 ∧ 13 ≤ 99 ∧ 1 ≤ 99 :=
  C2_bin_decode.1 "13-01-01-01" 13 1 (by decide)

/-! ## Claim C9 -/

theorem digit_not_ws {c : Char} (h : c.isDigit = true) : c.isWhitespace = false := by
  have h1 : c ≠ ' ' := fun hc => absurd (hc ▸ h) (by decide)
  have h2 : c ≠ '\t' := fun hc => absurd (hc ▸ h) (by decide)
  have h3 : c ≠ '\x0d' := fun hc => absurd (hc ▸ h) (by decide)
  have h4 : c ≠ '\n' := fun hc => absurd (hc ▸ h) (by decide)
  simp [Char.isWhitespace, h1, h2, h3, h4]

theorem dropWhile_eq_self_of_all {p : Char → Bool} {l : List Char}
    (h : ∀ c ∈ l, p c = false) : l.dropWhile p = l := by
  cases l with
  | nil => rfl
  | cons a t => simp [List.dropWhile_cons, h a (by simp)]

theorem pyStrip_of_digits {s : String} (h : s.data.all Char.isDigit = true) :
    pyStrip s = s := by
  have hws : ∀ c ∈ s.data, c.isWhitespace = false := fun c hc =>
    digit_not_ws (List.all_eq_true.mp h c hc)
  unfold pyStrip
  rw [dropWhile_eq_self_of_all hws,
    dropWhile_eq_self_of_all (fun c hc => hws c (List.mem_reverse.mp hc)),
    List.reverse_reverse]

/-- On a canonical-width all-digit string the normalizer is the identity. -/
theorem clean_unloading_point_canon {s : String}
    (hd : s.data.all Char.isDigit = true) (hl : s.data.length = 20) :
    clean_unloading_point (some s) = s := by
  simp only [clean_unloading_point]
  rw [pyStrip_of_digits hd]
  have hdot : ¬ (['.', '0'] <:+ s.data) := by
    intro hsuf
    exact absurd (List.all_eq_true.mp hd '.' (hsuf.subset (by simp))) (by decide)
  rw [if_neg hdot]
  have hE : ¬ ('E' ∈ s.data ∨ 'e' ∈ s.data) := by
    rintro (hm | hm) <;> exact absurd (List.all_eq_true.mp hd _ hm) (by decide)
  rw [if_neg hE]
  have hfin : ¬ (pyIsDigit s = true ∧ s.data.length < 20) := by
    rintro ⟨-, hlt⟩
    omega
  rw [if_neg hfin]

/-- C9: on strings already in canonical digit form (all decimal digits at the
canonical width 20) the identifier normalizer is idempotent. -/
theorem C9_normalize_idempotent (x : String)
    (hd : x.data.all Char.isDigit = true) (hl : x.data.length = 20) :
    clean_unloading_point (some (clean_unloading_point (some x))) =
      clean_unloading_point (some x) := by
  rw [clean_unloading_point_canon hd hl, clean_unloading_point_canon hd hl]

/-- Witness for C9 at a concrete canonical 20-digit string. -/
theorem C9_normalize_idempotent_witness :
    clean_unloading_point (some (clean_unloading_point (some "12345678901234567890"))) =
      clean_unloading_point (some "12345678901234567890") :=
  C9_normalize_idempotent "12345678901234567890" (by decide) (by decide)

/-! ## The `process_data` pipeline

The ingestion glue (file reading, delimiter detection, the `.1`-suffixed
column fallback) is outside the core; `process_data` is modelled from the
point where each raw row carries its schema fields.  Timestamp parsing
(`pd.to_datetime(date + ' ' + time, errors='coerce')`) is a parameter
`parseTS` applied to the combined `"date time"` string, returning `none` for
an unparseable combination (`NaT`).  A dataset-level flag `hasDelivery`
records whether the `Delivery` column is present in the schema.  Aggregate
rows keep the span in seconds (`Trvani_min` is that value divided by 60, and
the `Trvani_min ≥ 0` filter is equivalent to `0 ≤` the span in seconds).
Row order of the pandas aggregate table (sorted group keys) is not modelled;
the per-actor sort is modelled with a stable insertion sort. -/

/-- One raw input row with the logical columns `process_data` reads. -/
structure RawRow where
  user : String
  confDate : String
  confTime : String
  sourceBin : Option String
  material : Option String
  transferOrder : Option String
  delivery : Option String
  certificate : Option String
  unloadingPoint : Option String
  deriving DecidableEq

/-- A row that survived timestamp parsing, with the cleaned/derived columns
(`PickTimestamp`, `Clean_UP`, cleaned `Delivery`, `Typ_Picku`). -/
structure Event where
  user : String
  ts : Nat
  sourceBin : Option String
  material : Option String
  transferOrder : Option String
  delivery : Option String
  cleanUP : String
  typPicku : PickType
  deriving DecidableEq

/-- Build an `Event` from a raw row: parse the combined confirmation
date+time (dropping the row on failure), clean the unloading point and the
delivery id (the latter only when the `Delivery` column exists), classify. -/
def mkEvent (hasDelivery : Bool) (parseTS : String → Option Nat) (r : RawRow) : Option Event :=
  (parseTS (r.confDate ++ " " ++ r.confTime)).map fun t =>
    let cup := clean_unloading_point r.unloadingPoint
    { user := r.user
      ts := t
      sourceBin := r.sourceBin
      material := r.material
      transferOrder := r.transferOrder
      delivery := if hasDelivery then some (clean_delivery_id r.delivery) else none
      cleanUP := cup
      typPicku := classify r.certificate cup }

/-- The `sort_values(by=['User', 'PickTimestamp'])` order. -/
def evOrder (a b : Event) : Prop :=
  a.user < b.user ∨ (a.user = b.user ∧ a.ts ≤ b.ts)

instance : DecidableRel evOrder := fun a b => by
  unfold evOrder
  exact inferInstance

/-- The `groupby('User').shift(1)` linkage: pair each event with the most
recent earlier event of the same actor in the current row order (`seen` holds
the already-visited rows, most recent first). -/
def attachPrevGo (seen : List (String × Event)) : List Event → List (Event × Option Event)
  | [] => []
  | e :: rest =>
    (e, (seen.find? (fun q => q.1 == e.user)).map (fun q => q.2)) ::
      attachPrevGo ((e.user, e) :: seen) rest

/-- An event enriched with its previous-event fields (`PrevTimestamp`,
`PrevBin`, `Net_Seconds`, `Distance_Score`, `Row_Num`, `Bay_Num`). -/
structure SeqEvent where
  ev : Event
  prevTs : Option Nat
  prevBin : Option String
  netSeconds : Int
  distanceScore : Int
  rowNum : Option Nat
  bayNum : Option Nat
  deriving DecidableEq

/-- Enrich one (event, previous-event) pair. -/
def mkSeqEvent (p : Event × Option Event) : SeqEvent :=
  { ev := p.1
    prevTs := p.2.map (fun q => q.ts)
    prevBin := p.2.bind (fun q => q.sourceBin)
    netSeconds := calculate_net_time (p.2.map (fun q => q.ts)) (some p.1.ts)
    distanceScore := calculate_distance_score p.1.sourceBin (p.2.bind (fun q => q.sourceBin))
    rowNum := (parse_bin_coords p.1.sourceBin).map (fun c => c.1)
    bayNum := (parse_bin_coords p.1.sourceBin).map (fun c => c.2) }

/-- One row of the `del_stats` aggregate table: group key, min and max
timestamp, count of non-missing materials, first actor, span in seconds. -/
structure DeliveryStat where
  delivery : String
  start : Nat
  stop : Nat
  pocetPolozek : Nat
  user : String
  trvaniSec : Int
  deriving DecidableEq

/-- Fold minimum over a list with a starting value. -/
def natMinList (a : Nat) (l : List Nat) : Nat := l.foldl min a

/-- Fold maximum over a list with a starting value. -/
def natMaxList (a : Nat) (l : List Nat) : Nat := l.foldl max a

/-- The rows whose group key equals `k` (in current row order). -/
def groupOf (key : SeqEvent → Option String) (evs : List SeqEvent) (k : String) :
    List SeqEvent :=
  evs.filter (fun e => decide (key e = some k))

/-- The aggregate row (`min`/`max`/`count`/`first` of the group), or `none`
for an empty group. -/
def groupStat (key : SeqEvent → Option String) (evs : List SeqEvent) (k : String) :
    Option DeliveryStat :=
  match groupOf key evs k with
  | [] => none
  | e0 :: rest =>
    let startT := natMinList e0.ev.ts (rest.map (fun x => x.ev.ts))
    let endT := natMaxList e0.ev.ts (rest.map (fun x => x.ev.ts))
    some
      { delivery := k
        start := startT
        stop := endT
        pocetPolozek := ((e0 :: rest).filter (fun x => x.ev.material.isSome)).length
        user := e0.ev.user
        trvaniSec := (endT : Int) - (startT : Int) }

/-- The grouped aggregation of `process_data`: one row per distinct group
key, keeping only groups with nonnegative span. -/
def statsBy (key : SeqEvent → Option String) (evs : List SeqEvent) : List DeliveryStat :=
  ((evs.filterMap key).dedup.filterMap (groupStat key evs)).filter
    (fun st => decide (0 ≤ st.trvaniSec))

/-- The enriched per-event table of `process_data`: drop rows with
unparseable timestamps, sort by (actor, timestamp), link previous events,
compute the derived columns. -/
def enrichedEvents (parseTS : String → Option Nat) (hasDelivery : Bool)
    (rows : List RawRow) : List SeqEvent :=
  (attachPrevGo []
      (List.insertionSort evOrder (rows.filterMap (mkEvent hasDelivery parseTS)))).map
    mkSeqEvent

/-- `process_data` from `app.py`: returns the enriched per-event table and
the delivery aggregate table; when the `Delivery` column is absent the
aggregate table is empty (`del_stats = pd.DataFrame()`). -/
def process_data (parseTS : String → Option Nat) (hasDelivery : Bool)
    (rows : List RawRow) : List SeqEvent × List DeliveryStat :=
  (enrichedEvents parseTS hasDelivery rows,
   if hasDelivery then
     statsBy (fun e => e.ev.delivery) (enrichedEvents parseTS hasDelivery rows)
   else [])

/-- The group key as claim C1 words it: the delivery id when the delivery
column is present in the schema, else the task/transfer-order id. -/
def claimKey (hasDelivery : Bool) (e : SeqEvent) : Option String :=
  if hasDelivery then e.ev.delivery else e.ev.transferOrder

/-- Formalisation of claim C1's aggregation (for refutation): group the
processed events by `claimKey` unconditionally — the claimed fallback to
transfer-order grouping. -/
def aggregates_per_claim (parseTS : String → Option Nat) (hasDelivery : Bool)
    (rows : List RawRow) : List DeliveryStat :=
  statsBy (claimKey hasDelivery) (process_data parseTS hasDelivery rows).1

/-- What one aggregate row asserts about its group `g` (taken in output
order): nonempty, `start`/`stop` are the min/max timestamp attained in `g`,
the item count is the number of rows with a non-missing material, the actor
is the group's first row's actor, and the span is `stop - start ≥ 0`. -/
def statMatchesGroup (st : DeliveryStat) (g : List SeqEvent) : Prop :=
  g ≠ [] ∧
  (∀ x ∈ g, st.start ≤ x.ev.ts ∧ x.ev.ts ≤ st.stop) ∧
  (∃ x ∈ g, x.ev.ts = st.start) ∧
  (∃ x ∈ g, x.ev.ts = st.stop) ∧
  st.pocetPolozek = (g.filter (fun x => x.ev.material.isSome)).length ∧
  g.head?.map (fun x => x.ev.user) = some st.user ∧
  st.trvaniSec = (st.stop : Int) - (st.start : Int) ∧ 0 ≤ st.trvaniSec

/-! ## Claim C1 -/

theorem natMinList_le (a : Nat) (l : List Nat) :
    natMinList a l ≤ a ∧ ∀ x ∈ l, natMinList a l ≤ x := by
  induction l generalizing a with
  | nil => exact ⟨le_refl a, by simp⟩
  | cons b t ih =>
    refine ⟨le_trans (ih (min a b)).1 (min_le_left a b), ?_⟩
    intro x hx
    rcases List.mem_cons.mp hx with rfl | hx
    · exact le_trans (ih (min a x)).1 (min_le_right a x)
    · exact (ih (min a b)).2 x hx

theorem natMinList_mem (a : Nat) (l : List Nat) :
    natMinList a l = a ∨ natMinList a l ∈ l := by
  induction l generalizing a with
  | nil => exact Or.inl rfl
  | cons b t ih =>
    have hstep : natMinList a (b :: t) = natMinList (min a b) t := rfl
    rcases ih (min a b) with h | h
    · rcases Nat.le_total a b with hab | hab
      · exact Or.inl (by rw [hstep, h, min_eq_left hab])
      · refine Or.inr ?_
        rw [hstep, h, min_eq_right hab]
        exact List.mem_cons_self b t
    · exact Or.inr (List.mem_cons_of_mem b (hstep.symm ▸ h))

theorem le_natMaxList (a : Nat) (l : List Nat) :
    a ≤ natMaxList a l ∧ ∀ x ∈ l, x ≤ natMaxList a l := by
  induction l generalizing a with
  | nil => exact ⟨le_refl a, by simp⟩
  | cons b t ih =>
    refine ⟨le_trans (le_max_left a b) (ih (max a b)).1, ?_⟩
    intro x hx
    rcases List.mem_cons.mp hx with rfl | hx
    · exact le_trans (le_max_right a x) (ih (max a x)).1
    · exact (ih (max a b)).2 x hx

theorem natMaxList_mem (a : Nat) (l : List Nat) :
    natMaxList a l = a ∨ natMaxList a l ∈ l := by
  induction l generalizing a with
  | nil => exact Or.inl rfl
  | cons b t ih =>
    have hstep : natMaxList a (b :: t) = natMaxList (max a b) t := rfl
    rcases ih (max a b) with h | h
    · rcases Nat.le_total a b with hab | hab
      · refine Or.inr ?_
        rw [hstep, h, max_eq_right hab]
        exact List.mem_cons_self b t
      · exact Or.inl (by rw [hstep, h, max_eq_left hab])
    · exact Or.inr (List.mem_cons_of_mem b (hstep.symm ▸ h))

/-- A produced aggregate row records its key and the min/max/count/first
statistics of its (nonempty) group, and its span is nonnegative. -/
theorem groupStat_spec (key : SeqEvent → Option String) (evs : List SeqEvent) (k : String)
    (st : DeliveryStat) (h : groupStat key evs k = some st) :
    st.delivery = k ∧ statMatchesGroup st (groupOf key evs k) := by
  rw [groupStat] at h
  split at h
  · exact absurd h (by simp)
  · rename_i e0 rest heq
    injection h with h
    subst h
    rw [heq]
    refine ⟨rfl, List.cons_ne_nil e0 rest, ?_, ?_, ?_, rfl, rfl, rfl, ?_⟩
    · intro x hx
      rcases List.mem_cons.mp hx with rfl | hx
      · exact ⟨(natMinList_le _ _).1, (le_natMaxList _ _).1⟩
      · exact ⟨(natMinList_le _ _).2 _ (List.mem_map_of_mem _ hx),
          (le_natMaxList _ _).2 _ (List.mem_map_of_mem _ hx)⟩
    · rcases natMinList_mem e0.ev.ts (rest.map (fun x => x.ev.ts)) with h | h
      · exact ⟨e0, List.mem_cons_self e0 rest, h.symm⟩
      · obtain ⟨x, hx, hx2⟩ := List.mem_map.mp h
        exact ⟨x, List.mem_cons_of_mem e0 hx, hx2⟩
    · rcases natMaxList_mem e0.ev.ts (rest.map (fun x => x.ev.ts)) with h | h
      · exact ⟨e0, List.mem_cons_self e0 rest, h.symm⟩
      · obtain ⟨x, hx, hx2⟩ := List.mem_map.mp h
        exact ⟨x, List.mem_cons_of_mem e0 hx, hx2⟩
    · show (0 : Int) ≤ (natMaxList e0.ev.ts (rest.map (fun x => x.ev.ts)) : Int)
        - (natMinList e0.ev.ts (rest.map (fun x => x.ev.ts)) : Int)
      have hmin := (natMinList_le e0.ev.ts (rest.map (fun x => x.ev.ts))).1
      have hmax := (le_natMaxList e0.ev.ts (rest.map (fun x => x.ev.ts))).1
      omega

/-- C1 counterexample: a dataset whose schema has no delivery column but
whose single event carries transfer order `"T1"`.  The claimed fallback
grouping by task/transfer-order id would produce a (nonempty) aggregate
table, but `process_data` produces an empty one. -/
theorem C1_counterexample :
    (process_data (fun _ => some 0) false
        [{ user := "U", confDate := "d", confTime := "t", sourceBin := none,
           material := some "M", transferOrder := some "T1", delivery := none,
           certificate := none, unloadingPoint := none }]).2 = [] ∧
    aggregates_per_claim (fun _ => some 0) false
        [{ user := "U", confDate := "d", confTime := "t", sourceBin := none,
           material := some "M", transferOrder := some "T1", delivery := none,
           certificate := none, unloadingPoint := none }] ≠ [] := by
  constructor
  · rfl
  · decide

/-- When a group is nonempty, `groupStat` does produce an aggregate row. -/
theorem groupStat_total (key : SeqEvent → Option String) (evs : List SeqEvent) (k : String)
    (h : groupOf key evs k ≠ []) : ∃ st, groupStat key evs k = some st := by
  rw [groupStat]
  split
  · rename_i heq
    exact absurd heq h
  · exact ⟨_, rfl⟩

/-- C1 (amended): when the delivery column is present, events are grouped by
the cleaned delivery id: each aggregate row carries its group's min and max
timestamp, count of non-missing materials, first-seen actor and nonnegative
span, and conversely every delivery id occurring among the processed events
yields an aggregate row (its span, max minus min over the group, is never
negative, so the negative-span exclusion filter drops nothing here); when
the delivery column is absent, the aggregate output is empty — there is no
fallback to grouping by the task/transfer-order id. -/
theorem C1_delivery_grouping :
    (∀ (p : String → Option Nat) (rows : List RawRow),
        (process_data p false rows).2 = []) ∧
    (∀ (p : String → Option Nat) (rows : List RawRow) (st : DeliveryStat),
        st ∈ (process_data p true rows).2 →
        statMatchesGroup st
          (groupOf (fun e => e.ev.delivery) (process_data p true rows).1 st.delivery)) ∧
    (∀ (p : String → Option Nat) (rows : List RawRow) (e : SeqEvent) (k : String),
        e ∈ (process_data p true rows).1 → e.ev.delivery = some k →
        ∃ st ∈ (process_data p true rows).2, st.delivery = k) := by
  refine ⟨?_, ?_, ?_⟩
  · intro p rows
    rfl
  · intro p rows st hmem
    rw [show (process_data p true rows).1 = enrichedEvents p true rows from rfl]
    have hmem2 : st ∈ statsBy (fun e => e.ev.delivery) (enrichedEvents p true rows) := hmem
    rw [statsBy] at hmem2
    have h1 := List.mem_filter.mp hmem2
    obtain ⟨k, hk, hstat⟩ := List.mem_filterMap.mp h1.1
    obtain ⟨hdel, hmatch⟩ := groupStat_spec _ _ _ _ hstat
    rw [hdel]
    exact hmatch
  · intro p rows e k he hk
    have he2 : e ∈ enrichedEvents p true rows := he
    have hgrp : e ∈ groupOf (fun x => x.ev.delivery) (enrichedEvents p true rows) k :=
      List.mem_filter.mpr ⟨he2, decide_eq_true hk⟩
    obtain ⟨st, hstat⟩ :=
      groupStat_total (fun x => x.ev.delivery) (enrichedEvents p true rows) k
        (List.ne_nil_of_mem hgrp)
    obtain ⟨hdel, hmatch⟩ := groupStat_spec _ _ _ _ hstat
    refine ⟨st, ?_, hdel⟩
    show st ∈ statsBy (fun x => x.ev.delivery) (enrichedEvents p true rows)
    rw [statsBy]
    refine List.mem_filter.mpr ⟨?_, decide_eq_true hmatch.2.2.2.2.2.2.2⟩
    refine List.mem_filterMap.mpr ⟨k, ?_, hstat⟩
    rw [List.mem_dedup]
    exact List.mem_filterMap.mpr ⟨e, he2, hk⟩

/-- The one-delivery sample dataset row for the C1 witness. -/
def sampleRowD : RawRow :=
  { user := "U", confDate := "d", confTime := "t", sourceBin := none,
    material := some "M", transferOrder := none, delivery := some "D1",
    certificate := none, unloadingPoint := none }

/-- The enriched event `process_data` produces from `sampleRowD` when every
timestamp parses to 10 and the delivery column is present. -/
def sampleSeqD : SeqEvent :=
  mkSeqEvent
    ({ user := "U", ts := 10, sourceBin := none, material := some "M",
       transferOrder := none, delivery := some "D1", cleanUP := "",
       typPicku := PickType.ostatni }, none)

/-- Witness for C1 on a one-row dataset with delivery `"D1"`: the absent
column gives no aggregates, the produced aggregate row matches its group,
and the group with key `"D1"` does appear in the aggregate output. -/
theorem C1_delivery_grouping_witness :
    (process_data (fun _ => some 10) false [sampleRowD]).2 = [] ∧
    statMatchesGroup
      { delivery := "D1", start := 10, stop := 10, pocetPolozek := 1, user := "U",
        trvaniSec := 0 }
      (groupOf (fun e => e.ev.delivery)
        (process_data (fun _ => some 10) true [sampleRowD]).1 "D1") ∧
    ∃ st ∈ (process_data (fun _ => some 10) true [sampleRowD]).2, st.delivery = "D1" :=
  ⟨C1_delivery_grouping.1 (fun _ => some 10) [sampleRowD],
   C1_delivery_grouping.2.1 (fun _ => some 10) [sampleRowD]
     { delivery := "D1", start := 10, stop := 10, pocetPolozek := 1, user := "U",
       trvaniSec := 0 }
     (by decide),
   C1_delivery_grouping.2.2 (fun _ => some 10) [sampleRowD] sampleSeqD "D1"
     (by decide) (by decide)⟩

/-! ## Claim C8 -/

/-! ## Claim C8 -/

theorem attachPrevGo_map_fst (seen : List (String × Event)) (l : List Event) :
    (attachPrevGo seen l).map Prod.fst = l := by
  induction l generalizing seen with
  | nil => rfl
  | cons e rest ih => simp [attachPrevGo, ih]

/-- C8: every event in the enriched output of `process_data` originates from
an input row whose combined confirmation date+time parsed successfully, and
its timestamp is that parsed value — rows with unparseable timestamps are
dropped before any further processing. -/
theorem C8_drop_unparsed (p : String → Option Nat) (hd : Bool) (rows : List RawRow)
    (se : SeqEvent) (h : se ∈ (process_data p hd rows).1) :
    ∃ r ∈ rows, p (r.confDate ++ " " ++ r.confTime) = some se.ev.ts := by
  have h' : se ∈ (attachPrevGo []
      (List.insertionSort evOrder (rows.filterMap (mkEvent hd p)))).map mkSeqEvent := h
  obtain ⟨pr, hpr, hse⟩ := List.mem_map.mp h'
  have hfst : pr.1 ∈ List.insertionSort evOrder (rows.filterMap (mkEvent hd p)) := by
    have hm := List.mem_map_of_mem Prod.fst hpr
    rwa [attachPrevGo_map_fst] at hm
  have hev : pr.1 ∈ rows.filterMap (mkEvent hd p) :=
    (List.Perm.mem_iff (List.perm_insertionSort evOrder _)).mp hfst
  obtain ⟨r, hr, hmk⟩ := List.mem_filterMap.mp hev
  refine ⟨r, hr, ?_⟩
  rw [mkEvent] at hmk
  obtain ⟨t, hpt, hft⟩ := Option.map_eq_some'.mp hmk
  have hev2 : se.ev = pr.1 := congrArg SeqEvent.ev hse.symm
  rw [hev2, ← hft]
  exact hpt

/-- A sample one-row dataset for the C8 witness. -/
def sampleRow : RawRow :=
  { user := "U", confDate := "d", confTime := "t", sourceBin := none,
    material := none, transferOrder := none, delivery := none, certificate := none,
    unloadingPoint := none }

/-- The enriched event that `process_data` produces from `sampleRow` when
every timestamp parses to 5. -/
def sampleSeqEvent : SeqEvent :=
  mkSeqEvent
    ({ user := "U", ts := 5, sourceBin := none, material := none,
       transferOrder := none, delivery := none, cleanUP := "",
       typPicku := PickType.ostatni }, none)

/-- Witness for C8 on a one-row dataset whose timestamp parses to 5. -/
theorem C8_drop_unparsed_witness :
    ∃ r ∈ [sampleRow],
      ((fun _ => some 5) : String → Option Nat) (r.confDate ++ " " ++ r.confTime) =
        some sampleSeqEvent.ev.ts :=
  C8_drop_unparsed (fun _ => some 5) false [sampleRow] sampleSeqEvent (by decide)
